import Mathlib

/-!
Verification development for the jsonAnalyser repository.

The JavaScript sources (src/js/queryBuilder.js, src/js/queryEngine.js,
src/js/jsonParser.js, src/js/results.js and the storage module) are shallowly
embedded below.  JSON values are modelled by the mutual inductive family
`JValue`/`JArr`/`JObj` (a JS value: null, boolean, number, string, array,
object).  Numbers are modelled as integers: every concrete number appearing in
the claims under study is an integer, and none of the verified operations
performs arithmetic beyond taking lengths.  Stateful classes are modelled by
explicit state records and state-passing functions.  The two external
collaborators that are not part of the repository (the browser's `JSON.parse`
and the bundled JMESPath evaluator) enter as function parameters or as
definitions explicitly marked as modelled from the spec.
-/

mutual

inductive JValue where
  | null
  | bool (b : Bool)
  | num (n : Int)
  | str (s : String)
  | arr (xs : JArr)
  | obj (fs : JObj)
  deriving DecidableEq

inductive JArr where
  | nil
  | cons (hd : JValue) (tl : JArr)
  deriving DecidableEq

inductive JObj where
  | nil
  | cons (k : String) (v : JValue) (tl : JObj)
  deriving DecidableEq

end

def JArr.toList : JArr → List JValue
  | .nil => []
  | .cons x tl => x :: JArr.toList tl

def JObj.toList : JObj → List (String × JValue)
  | .nil => []
  | .cons k v tl => (k, v) :: JObj.toList tl

/-- The keys of a JS object, in insertion order (`Object.keys`). -/
def JObj.keys (fs : JObj) : List String := fs.toList.map Prod.fst

/-- Property access `item[key]`; `none` models JS `undefined` (key absent). -/
def JObj.lookup : JObj → String → Option JValue
  | .nil, _ => none
  | .cons k v tl, key => if k = key then some v else JObj.lookup tl key

/-- JS truthiness of a value: `null`, `false`, `0`, `""` (and in full JS also
`NaN` and `undefined`) are falsy; everything else, including `[]` and `{}`,
is truthy. -/
def truthy : JValue → Bool
  | .null => false
  | .bool b => b
  | .num n => n != 0
  | .str s => s != ""
  | .arr _ => true
  | .obj _ => true

/-- JS `String(value)` for the primitive values; the array/object cases are
unreachable from the call sites embedded below (both call sites dispatch
objects and arrays to `JSON.stringify` first), so they are given placeholder
results. -/
def jsString : JValue → String
  | .null => "null"
  | .bool true => "true"
  | .bool false => "false"
  | .num n => toString n
  | .str s => s
  | .arr _ => ""
  | .obj _ => ""

/-- The check `item && typeof item === 'object' && !Array.isArray(item)` used
by the table view and the CSV exporter: true exactly for (non-null) JS
objects. -/
def isMappingJV : JValue → Bool
  | .obj _ => true
  | _ => false

/-- JS whitespace as trimmed by `String.prototype.trim` (the ASCII whitespace
characters plus no-break space and the BOM; further exotic Unicode space
separators are irrelevant to this development). -/
def isJsSpace (c : Char) : Bool :=
  c = ' ' || c = '\t' || c = '\n' || c = '\r' || c = '\x0b' || c = '\x0c' ||
  c = Char.ofNat 160 || c = Char.ofNat 65279

/-- JS `s.trim()`. -/
def jsTrim (s : String) : String :=
  ⟨((s.data.dropWhile isJsSpace).reverse.dropWhile isJsSpace).reverse⟩

/-- JS `s.includes('.')` for the single character dot. -/
def strHasDot (s : String) : Bool := s.data.contains '.'

/-- Number of dots in a string; a path with `dotCount p` dots has
`dotCount p + 1` dot-separated segments. -/
def dotCount (s : String) : Nat := s.data.count '.'

/-- Lexicographic comparison of character lists (by Unicode code point, which
agrees with the UTF-16 comparison of JS `Array.prototype.sort`'s default
comparator on the characters occurring here). -/
def charListLe : List Char → List Char → Bool
  | [], _ => true
  | _ :: _, [] => false
  | a :: as, b :: bs => if a = b then charListLe as bs else decide (a < b)

/-- Lexicographic string comparison used to model the default JS sort. -/
def strLe (a b : String) : Bool := charListLe a.data b.data

theorem charListLe_total (as bs : List Char) :
    charListLe as bs = true ∨ charListLe bs as = true := by
  induction as generalizing bs with
  | nil => exact Or.inl rfl
  | cons a as ih =>
    cases bs with
    | nil => exact Or.inr rfl
    | cons b bs =>
      by_cases hab : a = b
      · subst hab
        simpa [charListLe] using ih bs
      · rcases lt_or_gt_of_ne hab with h | h
        · exact Or.inl (by simp [charListLe, hab, h])
        · exact Or.inr (by simp [charListLe, Ne.symm hab, not_lt_of_gt h, h])

theorem charListLe_trans (as bs cs : List Char)
    (h1 : charListLe as bs = true) (h2 : charListLe bs cs = true) :
    charListLe as cs = true := by
  induction as generalizing bs cs with
  | nil => rfl
  | cons a as ih =>
    cases bs with
    | nil => simp [charListLe] at h1
    | cons b bs =>
      cases cs with
      | nil => simp [charListLe] at h2
      | cons c cs =>
        simp only [charListLe] at h1 h2 ⊢
        by_cases hab : a = b
        · subst hab
          by_cases hbc : a = c
          · subst hbc
            simp only [if_pos rfl] at h1 h2 ⊢
            exact ih bs cs h1 h2
          · simp only [if_pos rfl] at h1
            simp only [if_neg hbc] at h2 ⊢
            exact h2
        · by_cases hbc : b = c
          · subst hbc
            simp only [if_neg hab] at h1 ⊢
            exact h1
          · simp only [if_neg hab] at h1
            simp only [if_neg hbc] at h2
            have hac : a < c := lt_trans (of_decide_eq_true h1) (of_decide_eq_true h2)
            have : a ≠ c := ne_of_lt hac
            simp [if_neg this, hac]

instance : IsTotal String (fun a b => strLe a b = true) :=
  ⟨fun a b => charListLe_total a.data b.data⟩

instance : IsTrans String (fun a b => strLe a b = true) :=
  ⟨fun a b c => charListLe_trans a.data b.data c.data⟩

/-- JS `array.join(sep)`. -/
def joinSep (sep : String) : List String → String
  | [] => ""
  | [s] => s
  | s :: rest => s ++ sep ++ joinSep sep rest

/-- Two-character lowercase hex rendering of a code point below 0x20, for
`JSON.stringify`'s control-character escapes. -/
def hexDigit (n : Nat) : Char :=
  if n < 10 then Char.ofNat (48 + n) else Char.ofNat (87 + n)

/-- The body of `JSON.stringify` for a string: escape quote, backslash and
control characters. -/
def escapeJsonStr (s : String) : String :=
  ⟨s.data.foldr (fun c acc =>
    if c = '"' then '\\' :: '"' :: acc
    else if c = '\\' then '\\' :: '\\' :: acc
    else if c = '\n' then '\\' :: 'n' :: acc
    else if c = '\r' then '\\' :: 'r' :: acc
    else if c = '\t' then '\\' :: 't' :: acc
    else if c = '\x08' then '\\' :: 'b' :: acc
    else if c = '\x0c' then '\\' :: 'f' :: acc
    else if c.toNat < 32 then
      '\\' :: 'u' :: '0' :: '0' :: hexDigit (c.toNat / 16) :: hexDigit (c.toNat % 16) :: acc
    else c :: acc) []⟩

mutual

/-- Compact `JSON.stringify(value)` (no indentation), as used for
object-valued table cells and CSV cells. -/
def jsonStringify : JValue → String
  | .null => "null"
  | .bool true => "true"
  | .bool false => "false"
  | .num n => toString n
  | .str s => "\"" ++ escapeJsonStr s ++ "\""
  | .arr xs => "[" ++ jsonStringifyArr xs ++ "]"
  | .obj fs => "\x7b" ++ jsonStringifyObj fs ++ "\x7d"

def jsonStringifyArr : JArr → String
  | .nil => ""
  | .cons x .nil => jsonStringify x
  | .cons x tl => jsonStringify x ++ "," ++ jsonStringifyArr tl

def jsonStringifyObj : JObj → String
  | .nil => ""
  | .cons k v .nil => "\"" ++ escapeJsonStr k ++ "\":" ++ jsonStringify v
  | .cons k v tl => "\"" ++ escapeJsonStr k ++ "\":" ++ jsonStringify v ++ "," ++ jsonStringifyObj tl

end

/-- Hexadecimal digit, as accepted inside a JS `0x...` numeric string. -/
def isHexDigitChar (c : Char) : Bool :=
  c.isDigit || ('a' ≤ c && c ≤ 'f') || ('A' ≤ c && c ≤ 'F')

/-- Optional exponent part of a JS decimal string: empty, or `e`/`E` followed
by an optionally signed nonempty digit sequence. -/
def expTail : List Char → Bool
  | [] => true
  | 'e' :: rest => signedDigits rest
  | 'E' :: rest => signedDigits rest
  | _ => false
where
  signedDigits : List Char → Bool
    | '+' :: rest => !rest.isEmpty && rest.all Char.isDigit
    | '-' :: rest => !rest.isEmpty && rest.all Char.isDigit
    | rest => !rest.isEmpty && rest.all Char.isDigit

/-- Unsigned JS decimal literal: digits, optionally a dot with further digits
(at least one digit overall), optionally an exponent. -/
def unsignedDecTail (cs : List Char) : Bool :=
  let d1 := cs.takeWhile Char.isDigit
  let r1 := cs.dropWhile Char.isDigit
  match r1 with
  | '.' :: r2 =>
    let d2 := r2.takeWhile Char.isDigit
    let r3 := r2.dropWhile Char.isDigit
    (!d1.isEmpty || !d2.isEmpty) && expTail r3
  | _ => !d1.isEmpty && expTail r1

/-- Optionally signed JS decimal string body, including `Infinity`. -/
def strDecimal (cs : List Char) : Bool :=
  match cs with
  | '+' :: rest => rest == "Infinity".data || unsignedDecTail rest
  | '-' :: rest => rest == "Infinity".data || unsignedDecTail rest
  | _ => cs == "Infinity".data || unsignedDecTail cs

/-- Body of a JS numeric string after trimming: a decimal string or an
unsigned hexadecimal / binary / octal literal. -/
def strNumericBody (cs : List Char) : Bool :=
  match cs with
  | '0' :: 'x' :: rest => !rest.isEmpty && rest.all isHexDigitChar
  | '0' :: 'X' :: rest => !rest.isEmpty && rest.all isHexDigitChar
  | '0' :: 'b' :: rest => !rest.isEmpty && rest.all (fun c => c = '0' || c = '1')
  | '0' :: 'B' :: rest => !rest.isEmpty && rest.all (fun c => c = '0' || c = '1')
  | '0' :: 'o' :: rest => !rest.isEmpty && rest.all (fun c => '0' ≤ c && c ≤ '7')
  | '0' :: 'O' :: rest => !rest.isEmpty && rest.all (fun c => '0' ≤ c && c ≤ '7')
  | _ => strDecimal cs

/-- JS `!isNaN(value)` for a string `value`: the string-to-number coercion
`Number(value)` does not yield `NaN`.  The whole string is trimmed first; an
empty or all-whitespace string coerces to `0` and therefore counts as
numeric. -/
def isNumericString (s : String) : Bool :=
  let t := (jsTrim s).data
  t.isEmpty || strNumericBody t

/-- One field row of the builder configuration: `{field, alias}` where the
alias has already been defaulted to the field name when blank (this default
is applied by `updateFieldSelection` before the row is stored). -/
structure SelectedField where
  field : String
  aliasName : String
  deriving DecidableEq

/-- One filter row of the builder configuration: `{field, operator, value}`.
The `operator` component stores the operator symbol (`==`, `!=`, `>`, `>=`,
`<`, `<=`, `contains`, `starts_with`, `ends_with`), as in
`QueryBuilder.operators[].value`. -/
structure FilterCond where
  field : String
  operator : String
  value : String
  deriving DecidableEq

/-- The builder configuration `QueryBuilder.config`. -/
structure BuilderConfig where
  operation : String
  selectedFields : List SelectedField
  filters : List FilterCond
  sortField : String
  sortDirection : String
  deriving DecidableEq

/-- The configuration installed by the constructor and by `reset()`. -/
def defaultConfig : BuilderConfig := ⟨"select", [], [], "", "asc"⟩

/-- `QueryBuilder.formatFilterCondition`. -/
def formatFilterCondition (f : FilterCond) : String :=
  let formattedValue :=
    if isNumericString f.value then "\x60" ++ f.value ++ "\x60"
    else "\x27" ++ f.value ++ "\x27"
  if f.operator = "contains" then
    "contains(" ++ f.field ++ ", " ++ formattedValue ++ ")"
  else if f.operator = "starts_with" then
    "starts_with(" ++ f.field ++ ", " ++ formattedValue ++ ")"
  else if f.operator = "ends_with" then
    "ends_with(" ++ f.field ++ ", " ++ formattedValue ++ ")"
  else
    f.field ++ " " ++ f.operator ++ " " ++ formattedValue

/-- `QueryBuilder.generateSelectQuery`. -/
def generateSelectQuery (cfg : BuilderConfig) : String :=
  if cfg.selectedFields.isEmpty then "@"
  else
    "[*].\x7b" ++
      joinSep ", " (cfg.selectedFields.map (fun f => f.aliasName ++ ": " ++ f.field)) ++
      "\x7d"

/-- `QueryBuilder.generateFilterQuery`. -/
def generateFilterQuery (cfg : BuilderConfig) : String :=
  if cfg.filters.isEmpty then "@"
  else "[?" ++ joinSep " && " (cfg.filters.map formatFilterCondition) ++ "]"

/-- `QueryBuilder.generateCountQuery`. -/
def generateCountQuery (cfg : BuilderConfig) : String :=
  if cfg.filters.isEmpty then "length(@)"
  else "length(" ++ generateFilterQuery cfg ++ ")"

/-- `QueryBuilder.generateSortQuery`. -/
def generateSortQuery (cfg : BuilderConfig) : String :=
  if cfg.sortField = "" then "@"
  else
    let sortQuery := "sort_by(@, &" ++ cfg.sortField ++ ")"
    if cfg.sortDirection = "desc" then "reverse(" ++ sortQuery ++ ")" else sortQuery

/-- `QueryBuilder.generateComplexQuery`: filter (or `[*]`), then projection,
then sort, built by successive reassignment exactly as in the source. -/
def generateComplexQuery (cfg : BuilderConfig) : String :=
  let query :=
    if cfg.filters.isEmpty then "[*]"
    else "[?" ++ joinSep " && " (cfg.filters.map formatFilterCondition) ++ "]"
  let query :=
    if cfg.selectedFields.isEmpty then query
    else query ++ ".\x7b" ++
      joinSep ", " (cfg.selectedFields.map (fun f => f.aliasName ++ ": " ++ f.field)) ++
      "\x7d"
  if cfg.sortField = "" then query
  else
    let query := "sort_by(" ++ query ++ ", &" ++ cfg.sortField ++ ")"
    if cfg.sortDirection = "desc" then "reverse(" ++ query ++ ")" else query

/-- `QueryBuilder.generateQuery`: dispatch on the operation, `'@'` for an
unknown operation (the initial value of the `query` local survives the
`switch`). -/
def generateQuery (cfg : BuilderConfig) : String :=
  if cfg.operation = "select" then generateSelectQuery cfg
  else if cfg.operation = "filter" then generateFilterQuery cfg
  else if cfg.operation = "count" then generateCountQuery cfg
  else if cfg.operation = "sort" then generateSortQuery cfg
  else if cfg.operation = "complex" then generateComplexQuery cfg
  else "@"

mutual

/-- The inner `extractFields` walker of `QueryBuilder.getAvailableFields`:
descend into the first element of a non-empty array (keeping the accumulated
path), and for an object emit every key prefixed by the accumulated path,
recursing into the key's value only while the accumulated path contains no
dot.  Paths are emitted into a JS `Set`; since the result is sorted
afterwards, the `Set` is modelled by collecting a list and deduplicating. -/
def extractFields (v : JValue) (pre : String) : List String :=
  match v with
  | .arr (.cons x _) => extractFields x pre
  | .obj fs => extractFieldsKV fs pre
  | _ => []

def extractFieldsKV (fs : JObj) (pre : String) : List String :=
  match fs with
  | .nil => []
  | .cons k val rest =>
    let fieldPath := if pre = "" then k else pre ++ "." ++ k
    (fieldPath :: (if strHasDot pre then [] else extractFields val fieldPath)) ++
      extractFieldsKV rest pre

end

/-- `QueryBuilder.getAvailableFields` applied to a given document:
`Array.from(fields).sort()` — deduplicate and sort lexicographically. -/
def getAvailableFields (v : JValue) : List String :=
  List.insertionSort (fun a b => strLe a b = true) (extractFields v "").dedup

/-- Abstract syntax of the fragment of the expression language needed to
discuss the default-configuration queries: the root reference `@`, the
`length(...)` function, and the bare list projection `[*]`. -/
inductive JExpr where
  | root
  | lengthOf (e : JExpr)
  | wildcard
  deriving DecidableEq

/-- The expression text denoted by a `JExpr`. -/
def renderExpr : JExpr → String
  | .root => "@"
  | .lengthOf e => "length(" ++ renderExpr e ++ ")"
  | .wildcard => "[*]"

/-- Keep the non-null elements of an array (a bare list projection maps every
element through the identity and a projection drops null results). -/
def filterNonNull : JArr → JArr
  | .nil => .nil
  | .cons x tl =>
    match x with
    | .null => filterNonNull tl
    | _ => .cons x (filterNonNull tl)

/-- Modelled from the spec: the external JMESPath evaluator (a bundled
third-party library, not part of the repository sources) restricted to the
`JExpr` fragment.  `@` returns the current document; `length(e)` returns the
length of an array, string or object and fails (`none`) on other types; a
bare `[*]` on a non-array yields `null`, and on an array projects each
element through the identity, dropping nulls. -/
def jmesSearch : JExpr → JValue → Option JValue
  | .root, v => some v
  | .lengthOf e, v =>
    match jmesSearch e v with
    | some (.arr xs) => some (.num xs.toList.length)
    | some (.str s) => some (.num s.length)
    | some (.obj fs) => some (.num fs.toList.length)
    | _ => none
  | .wildcard, v =>
    match v with
    | .arr xs => some (.arr (filterNonNull xs))
    | _ => some .null

/-- The engine-owned mutable fields of `QueryEngine` that the claims touch:
`queryResults` (a JS value, `null` initially and after an evaluation error)
and `currentQuery`. -/
structure EngineState where
  queryResults : JValue
  currentQuery : String
  deriving DecidableEq

/-- Which branch of `QueryEngine.executeQuery` ran. -/
inductive ExecOutcome where
  | emptyInput
  | emptyQuery
  | success (r : JValue)
  | evalError (msg : String)
  deriving DecidableEq

/-- `QueryEngine.executeQuery`.  `searchFn` abstracts the external
`window.jmespath.search` (assumed loaded: the `isJMESPathLoaded` guard is the
true branch), `doc` is `jsonParser.getCurrentJSON()`.  Returns the boolean
result together with the updated engine state and the branch taken.  The
guard `if (!jsonData)` is JS truthiness, the guard
`if (!query || query.trim() === '')` is modelled by trimming (an empty string
trims to the empty string).  On the empty-input branch nothing in the state
changes; on the empty-query branch only `currentQuery` is cleared; inside the
`try` block `currentQuery` is assigned before the evaluator runs, so it keeps
the query text even when evaluation fails, while `queryResults` is reset to
`null` on failure. -/
def executeQuery (searchFn : String → JValue → Except String JValue)
    (doc : JValue) (st : EngineState) (query : String) :
    Bool × EngineState × ExecOutcome :=
  if truthy doc = false then (false, st, .emptyInput)
  else if jsTrim query = "" then (false, ⟨st.queryResults, ""⟩, .emptyQuery)
  else
    match searchFn query doc with
    | .ok r => (true, ⟨r, query⟩, .success r)
    | .error m => (false, ⟨JValue.null, query⟩, .evalError m)

/-- `QueryEngine.getCurrentResults`. -/
def getCurrentResults (st : EngineState) : JValue := st.queryResults

/-- Did `executeQuery` get past both precondition checks and reach the
evaluator? -/
def isEvaluated : ExecOutcome → Bool
  | .success _ => true
  | .evalError _ => true
  | _ => false

/-- First-seen accumulation of keys into a JS `Set`, read back in insertion
order. -/
def addKeysFirstSeen (acc : List String) (ks : List String) : List String :=
  ks.foldl (fun a k => if a.contains k then a else a ++ [k]) acc

/-- One step of the key collection of `QueryEngine.generateTableView`:
object elements contribute their keys, everything else is skipped. -/
def tableKeysStep (acc : List String) (item : JValue) : List String :=
  match item with
  | .obj fs => addKeysFirstSeen acc fs.keys
  | _ => acc

/-- The key `Set` built by `QueryEngine.generateTableView`: the union of the
keys of all object elements, in first-seen order. -/
def tableKeys (data : List JValue) : List String :=
  data.foldl tableKeysStep []

/-- One `<td>` cell of the table view: `null`/`undefined` render as the null
marker, objects and arrays as their compact JSON text, scalars via
`String(value)`. -/
def tableCell (value : Option JValue) : String :=
  match value with
  | none => "<span class=\"null-value\">null</span>"
  | some .null => "<span class=\"null-value\">null</span>"
  | some (.obj fs) => "<span class=\"object-value\">" ++ jsonStringify (.obj fs) ++ "</span>"
  | some (.arr xs) => "<span class=\"object-value\">" ++ jsonStringify (.arr xs) ++ "</span>"
  | some v => jsString v

/-- One `<tr>` row of the table view; non-object elements contribute
nothing. -/
def tableRow (keysArray : List String) (item : JValue) : String :=
  match item with
  | .obj fs =>
    "<tr>" ++ joinSep "" (keysArray.map (fun k => "<td>" ++ tableCell (fs.lookup k) ++ "</td>")) ++ "</tr>"
  | _ => ""

/-- `QueryEngine.generateTableView`. -/
def generateTableView (data : List JValue) : String :=
  if data.length = 0 then "<p class=\"info-text\">No data to display in table view</p>"
  else
    let keysArray := tableKeys data
    if keysArray.length = 0 then "<p class=\"info-text\">Data cannot be displayed in table format</p>"
    else
      "<div class=\"table-container\"><table class=\"results-table\">" ++
      "<thead><tr>" ++ joinSep "" (keysArray.map (fun k => "<th>" ++ k ++ "</th>")) ++ "</tr></thead>" ++
      "<tbody>" ++ joinSep "" (data.map (tableRow keysArray)) ++ "</tbody>" ++
      "</table></div>"

/-- The shape of what `QueryEngine.displayResults` renders: whether the
placeholder message is shown, whether the (always syntax-highlighted) JSON
text view is present, and the contents of the table view when its tab is
offered.  The text view's concrete markup (pretty-printing plus
highlighting) is not needed by any claim and is tracked as presence only.
The table tab and the table container are rendered exactly when the result
is an array with at least one element. -/
structure ResultDisplay where
  placeholder : Bool
  hasTextView : Bool
  tableView : Option String
  deriving DecidableEq

/-- `QueryEngine.displayResults` (argument `null` models both JS `null` and
`undefined`, which the source treats identically). -/
def displayResults (results : JValue) : ResultDisplay :=
  match results with
  | .null => ⟨true, false, none⟩
  | .arr xs =>
    ⟨false, true,
      if xs.toList.length > 0 then some (generateTableView xs.toList) else none⟩
  | _ => ⟨false, true, none⟩

/-- The record returned by `validateJSON` in utils.js:
`{valid, data, error}`. -/
structure ValidationOutcome where
  valid : Bool
  data : JValue
  error : Option String
  deriving DecidableEq

/-- `validateJSON` from utils.js, over an abstract underlying JSON parser
`jp` standing for `JSON.parse` (success value, or thrown error message). -/
def validateJSON (jp : String → Except String JValue) (str : String) :
    ValidationOutcome :=
  match jp str with
  | .ok d => ⟨true, d, none⟩
  | .error e => ⟨false, JValue.null, some e⟩

/-- The `JSONParser` fields the claims touch: the stored document
`currentJSON` (a JS value; `null` both initially and after clearing) and the
text of the error display (`""` when hidden). -/
structure ParserState where
  currentJSON : JValue
  errorText : String
  deriving DecidableEq

/-- `JSONParser.parse`: blank input clears everything silently; otherwise
validate, store the parsed document on success, or clear the document and
surface the validator's message on failure.  The previous state is
overwritten wholesale in every branch (the display-only side effects
`displayOutput`/`updateStats` are not modelled). -/
def parse (jp : String → Except String JValue) (st : ParserState)
    (input : String) : Bool × ParserState :=
  if jsTrim input = "" then (false, ⟨JValue.null, ""⟩)
  else
    let result := validateJSON jp input
    if result.valid then (true, ⟨result.data, ""⟩)
    else (false, ⟨JValue.null, result.error.getD ""⟩)

/-- `JSONParser.getCurrentJSON`. -/
def getCurrentJSON (st : ParserState) : JValue := st.currentJSON

/-- A concrete stand-in for the external `JSON.parse`, used to instantiate
the abstract parser parameter in witnesses and counterexamples.  It decides
a handful of concrete documents and fails (with a browser-style message) on
everything else, in particular on the empty string. -/
def toyParse (s : String) : Except String JValue :=
  if s = "false" then .ok (.bool false)
  else if s = "0" then .ok (.num 0)
  else if s = "null" then .ok .null
  else if s = "\"\"" then .ok (.str "")
  else if s = "[1, 2]" then .ok (.arr (.cons (.num 1) (.cons (.num 2) .nil)))
  else if s = "" then .error "Unexpected end of JSON input"
  else .error "Unexpected token in JSON"

/-- One history record as stored by the storage module (`{query, timestamp}`;
the random `id` field plays no role in the claims and is omitted, and the
ISO timestamp string is abstracted to a number supplied by the caller in
place of the ambient clock). -/
structure HistoryEntry where
  query : String
  timestamp : Nat
  deriving DecidableEq

/-- `StorageManager.MAX_HISTORY_ITEMS`. -/
def MAX_HISTORY_ITEMS : Nat := 50

/-- `StorageManager.addToHistory` as a pure function on the stored history
list: blank queries are ignored; otherwise any entry with the same query
text is removed, the new entry is put at the front, and the list is capped
at 50 items. -/
def addToHistory (now : Nat) (query : String) (history : List HistoryEntry) :
    List HistoryEntry :=
  if jsTrim query = "" then history
  else
    let filtered := history.filter (fun item => item.query != query)
    let updated := ⟨query, now⟩ :: filtered
    if updated.length > MAX_HISTORY_ITEMS then updated.take MAX_HISTORY_ITEMS
    else updated

/-- `ResultsExporter.escapeCSVValue` (delimiter `,`): wrap in double quotes,
doubling embedded quotes, exactly when the value contains the delimiter, a
double quote or a newline. -/
def escapeCSVValue (value : String) : String :=
  if value.data.contains ',' || value.data.contains '"' || value.data.contains '\n' then
    "\"" ++ (⟨value.data.foldr (fun c acc => if c = '"' then '"' :: '"' :: acc else c :: acc) []⟩ : String) ++ "\""
  else value

/-- `ResultsExporter.formatCSVValue`: `undefined` (missing key, `none`) and
`null` become the empty cell, objects and arrays are embedded as their
compact JSON text, scalars as their `String(value)` form, everything CSV
escaped. -/
def formatCSVValue (value : Option JValue) : String :=
  match value with
  | none => ""
  | some .null => ""
  | some (.obj fs) => escapeCSVValue (jsonStringify (.obj fs))
  | some (.arr xs) => escapeCSVValue (jsonStringify (.arr xs))
  | some v => escapeCSVValue (jsString v)

/-- The header `Set` of `ResultsExporter.convertToCSV`: union of all record
keys in first-seen order. -/
def csvHeaders (data : List JObj) : List String :=
  data.foldl (fun acc item => addKeysFirstSeen acc item.keys) []

/-- `ResultsExporter.convertToCSV` on an array of records (the caller
`exportToCSV` has already filtered the input down to objects). -/
def convertToCSV (data : List JObj) : String :=
  if data.length = 0 then ""
  else
    let headers := csvHeaders data
    let headerRow := joinSep "," (headers.map escapeCSVValue)
    let dataRows := data.map (fun item =>
      joinSep "," (headers.map (fun header => formatCSVValue (item.lookup header))))
    joinSep "\n" (headerRow :: dataRows)

mutual

def keysDotFree : JValue → Bool
  | .arr xs => keysDotFreeArr xs
  | .obj fs => keysDotFreeObj fs
  | _ => true

def keysDotFreeArr : JArr → Bool
  | .nil => true
  | .cons x tl => keysDotFree x && keysDotFreeArr tl

def keysDotFreeObj : JObj → Bool
  | .nil => true
  | .cons k v tl => !strHasDot k && keysDotFree v && keysDotFreeObj tl

end

theorem dotCount_append (a b : String) : dotCount (a ++ b) = dotCount a + dotCount b := by
  simp [dotCount, String.data_append, List.count_append]

theorem dotCount_eq_zero_of_not_hasDot (s : String) (h : strHasDot s = false) :
    dotCount s = 0 := by
  have : '.' ∉ s.data := by simpa [strHasDot] using h
  simpa [dotCount] using List.count_eq_zero.mpr this

mutual

theorem extractFields_dots (v : JValue) (pre : String)
    (hkeys : keysDotFree v = true) (hpre : dotCount pre ≤ 1) :
    ∀ p ∈ extractFields v pre, dotCount p ≤ 2 := by
  match v with
  | .arr (.cons x tl) =>
    have hk : keysDotFree x = true := by
      simp [keysDotFree, keysDotFreeArr] at hkeys
      exact hkeys.1
    simpa [extractFields] using extractFields_dots x pre hk hpre
  | .obj fs =>
    have hk : keysDotFreeObj fs = true := by simpa [keysDotFree] using hkeys
    simpa [extractFields] using extractFieldsKV_dots fs pre hk hpre
  | .null => simp [extractFields]
  | .bool b => simp [extractFields]
  | .num n => simp [extractFields]
  | .str s => simp [extractFields]
  | .arr .nil => simp [extractFields]

theorem extractFieldsKV_dots (fs : JObj) (pre : String)
    (hkeys : keysDotFreeObj fs = true) (hpre : dotCount pre ≤ 1) :
    ∀ p ∈ extractFieldsKV fs pre, dotCount p ≤ 2 := by
  match fs with
  | .nil => simp [extractFieldsKV]
  | .cons k val rest =>
    have hk : strHasDot k = false := by
      simp [keysDotFreeObj] at hkeys
      simpa using hkeys.1.1
    have hv : keysDotFree val = true := by
      simp [keysDotFreeObj] at hkeys
      exact hkeys.1.2
    have hr : keysDotFreeObj rest = true := by
      simp [keysDotFreeObj] at hkeys
      exact hkeys.2
    have hkc : dotCount k = 0 := dotCount_eq_zero_of_not_hasDot k hk
    intro p hp
    rw [extractFieldsKV] at hp
    simp only [List.mem_append, List.mem_cons] at hp
    rcases hp with (rfl | hp) | hp
    · by_cases hpre0 : pre = ""
      · simp [hpre0, hkc]
      · rw [if_neg hpre0, dotCount_append, dotCount_append, hkc]
        have : dotCount "." = 1 := by decide
        omega
    · by_cases hdot : strHasDot pre
      · simp [hdot] at hp
      · rw [if_neg (by simp [hdot])] at hp
        have hpre0 : dotCount pre = 0 := dotCount_eq_zero_of_not_hasDot pre (by simpa using hdot)
        have hfp : dotCount (if pre = "" then k else pre ++ "." ++ k) ≤ 1 := by
          by_cases hpre1 : pre = ""
          · simp [hpre1, hkc]
          · rw [if_neg hpre1, dotCount_append, dotCount_append, hkc, hpre0]
            decide
        exact extractFields_dots val _ hv hfp p hp
    · exact extractFieldsKV_dots rest pre hr hpre p hp

end

/-- A two-level and a three-level nested object document used as concrete
instances below. -/
def doc2 : JValue :=
  .obj (.cons "a" (.obj (.cons "b" (.num 1) .nil)) .nil)

def doc3 : JValue :=
  .obj (.cons "a" (.obj (.cons "b" (.obj (.cons "c" (.num 1) .nil)) .nil)) .nil)

/-- C2: for every document, the discovered field-path list is
lexicographically sorted and duplicate-free, and (amended) when the
document's keys themselves contain no dots, every emitted path has at most
3 dot-separated segments (not 2 as claimed: recursion continues below any
key whose accumulated path contains no dot, i.e. below depth-0 and depth-1
keys, so three-segment paths are emitted).  Discovery descends into the
first element of a non-empty sequence, keeping the accumulated path. -/
theorem claim2_field_discovery (v : JValue) :
    List.Sorted (fun a b => strLe a b = true) (getAvailableFields v) ∧
    (getAvailableFields v).Nodup ∧
    (keysDotFree v = true → ∀ p ∈ getAvailableFields v, dotCount p + 1 ≤ 3) ∧
    (∀ (x : JValue) (tl : JArr) (pre : String),
       extractFields (JValue.arr (JArr.cons x tl)) pre = extractFields x pre) := by
  refine ⟨List.sorted_insertionSort _ _, ?_, ?_, ?_⟩
  · exact (List.perm_insertionSort _ _).nodup_iff.mpr (List.nodup_dedup _)
  · intro hkeys p hp
    have hp' : p ∈ (extractFields v "").dedup :=
      (List.perm_insertionSort _ _).mem_iff.mp hp
    have hp'' : p ∈ extractFields v "" := List.mem_dedup.mp hp'
    have := extractFields_dots v "" hkeys (by decide) p hp''
    omega
  · intro x tl pre
    rfl

/-- C2 counterexample: on the dot-free three-level document
`{a: {b: {c: 1}}}` the discovered paths include `a.b.c`, which has three
dot-separated segments, refuting the claimed bound of two. -/
theorem claim2_cex :
    keysDotFree doc3 = true ∧
    "a.b.c" ∈ getAvailableFields doc3 ∧
    ¬ (dotCount "a.b.c" + 1 ≤ 2) := by
  refine ⟨rfl, by decide, by decide⟩

/-- Witness for `claim2_field_discovery` at the concrete document
`{a: {b: 1}}` and path `a.b`. -/
theorem claim2_witness :
    keysDotFree doc2 = true ∧ "a.b" ∈ getAvailableFields doc2 ∧
    dotCount "a.b" + 1 ≤ 3 :=
  ⟨by decide, by decide,
    (claim2_field_discovery doc2).2.2.1 (by decide) "a.b" (by decide)⟩

/-- C1 (amended): from the default all-empty configuration, the select,
filter and sort operations generate the identity expression `@` (whose
execution returns any document unchanged), but count generates `length(@)`
(the length of the whole document) and complex generates `[*]` (a bare list
projection), neither of which is the identity. -/
theorem claim1_default_generation :
    generateQuery ⟨"select", [], [], "", "asc"⟩ = renderExpr .root ∧
    generateQuery ⟨"filter", [], [], "", "asc"⟩ = renderExpr .root ∧
    generateQuery ⟨"sort", [], [], "", "asc"⟩ = renderExpr .root ∧
    generateQuery ⟨"count", [], [], "", "asc"⟩ = renderExpr (.lengthOf .root) ∧
    generateQuery ⟨"complex", [], [], "", "asc"⟩ = renderExpr .wildcard ∧
    (∀ d : JValue, jmesSearch .root d = some d) :=
  ⟨rfl, rfl, rfl, rfl, rfl, fun _ => rfl⟩

/-- C1 counterexample: with the all-empty configuration the count operation
generates `length(@)`, whose execution on the document `[1, 2]` yields `2`,
not the document; and the complex operation generates `[*]`, whose execution
on the document `5` yields `null`, not the document.  So the default
configuration does not generate the identity expression for these two
operations. -/
theorem claim1_cex :
    generateQuery ⟨"count", [], [], "", "asc"⟩ = "length(@)" ∧
    jmesSearch (.lengthOf .root) (JValue.arr (.cons (.num 1) (.cons (.num 2) .nil))) =
      some (JValue.num 2) ∧
    some (JValue.num 2) ≠ some (JValue.arr (.cons (.num 1) (.cons (.num 2) .nil))) ∧
    renderExpr (.lengthOf .root) = "length(@)" ∧
    generateQuery ⟨"complex", [], [], "", "asc"⟩ = "[*]" ∧
    jmesSearch .wildcard (JValue.num 5) = some JValue.null ∧
    some JValue.null ≠ some (JValue.num 5) := by
  refine ⟨rfl, rfl, by decide, rfl, rfl, rfl, by decide⟩

/-- Spec-side filter step of the complex operation: the filter expression,
or the full-sequence marker `[*]` when the filter list is empty. -/
def filterStepSpec (filters : List FilterCond) : String :=
  if filters.isEmpty then "[*]"
  else "[?" ++ joinSep " && " (filters.map formatFilterCondition) ++ "]"

/-- Spec-side projection step of the complex operation: apply the record
projection to the expression built so far, only when fields are selected. -/
def projectStepSpec (selectedFields : List SelectedField) (q : String) : String :=
  if selectedFields.isEmpty then q
  else q ++ ".\x7b" ++
    joinSep ", " (selectedFields.map (fun f => f.aliasName ++ ": " ++ f.field)) ++ "\x7d"

/-- Spec-side sort step of the complex operation: wrap the whole expression
in `sort_by` only when a sort field is set, wrapping the ascending-sorted
expression in a `reverse` when the direction is descending. -/
def sortStepSpec (sortField sortDirection : String) (q : String) : String :=
  if sortField = "" then q
  else
    let ascending := "sort_by(" ++ q ++ ", &" ++ sortField ++ ")"
    if sortDirection = "desc" then "reverse(" ++ ascending ++ ")" else ascending

/-- C3 (amended): `executeQuery` returns the EmptyInput outcome exactly when
the stored document is JS-falsy — which is the case not only when nothing is
loaded (`null`) but also for the successfully parsed documents `false`, `0`
and `""`; whenever the stored document is truthy and the expression text is
non-blank, execution proceeds past both precondition checks to the
evaluator. -/
theorem claim3_empty_input_check (searchFn : String → JValue → Except String JValue)
    (doc : JValue) (st : EngineState) (q : String) :
    ((executeQuery searchFn doc st q).2.2 = ExecOutcome.emptyInput ↔ truthy doc = false) ∧
    (truthy doc = true → jsTrim q ≠ "" →
      isEvaluated (executeQuery searchFn doc st q).2.2 = true) := by
  unfold executeQuery
  by_cases hd : truthy doc = false
  · simp [hd]
  · have hd' : truthy doc = true := by revert hd; cases truthy doc <;> simp
    by_cases hq : jsTrim q = ""
    · simp [hd', hq]
    · simp only [hd', Bool.true_eq_false, if_false, if_neg hq]
      cases searchFn q doc <;> simp [isEvaluated, hd']

/-- C3 counterexample: parsing the input text `false` succeeds and stores the
document `false`, yet `executeQuery` on the non-blank query `@` then takes
the EmptyInput branch instead of proceeding to evaluation, because the
document-presence check `if (!jsonData)` tests JS truthiness. -/
theorem claim3_cex :
    (parse toyParse ⟨JValue.null, ""⟩ "false").1 = true ∧
    getCurrentJSON (parse toyParse ⟨JValue.null, ""⟩ "false").2 = JValue.bool false ∧
    jsTrim "@" ≠ "" ∧
    (executeQuery (fun _ v => Except.ok v)
      (getCurrentJSON (parse toyParse ⟨JValue.null, ""⟩ "false").2)
      ⟨JValue.null, ""⟩ "@").2.2 = ExecOutcome.emptyInput := by
  refine ⟨rfl, rfl, by decide, rfl⟩

/-- Witness for `claim3_empty_input_check` with the truthy document `[]` and
the non-blank query `@`. -/
theorem claim3_witness :
    truthy (JValue.arr .nil) = true ∧ jsTrim "@" ≠ "" ∧
    isEvaluated (executeQuery (fun _ v => Except.ok v) (JValue.arr .nil)
      ⟨JValue.null, ""⟩ "@").2.2 = true :=
  ⟨by decide, by decide,
    (claim3_empty_input_check (fun _ v => Except.ok v) (JValue.arr .nil)
      ⟨JValue.null, ""⟩ "@").2 (by decide) (by decide)⟩

/-- C5: for every configuration whose operation is complex, the generated
expression is the fixed composition: filter expression first (or the
full-sequence marker `[*]` when no filters are given), then the record
projection applied to it when fields are selected, then the sort wrapping
when a sort field is set, with descending direction wrapping the
ascending-sorted expression in a `reverse`. -/
theorem claim5_complex_composition (sfs : List SelectedField)
    (fls : List FilterCond) (sfld sdir : String) :
    generateQuery ⟨"complex", sfs, fls, sfld, sdir⟩ =
      sortStepSpec sfld sdir (projectStepSpec sfs (filterStepSpec fls)) := rfl

/-- C6 (amended): for every non-blank input text on which the underlying
JSON parser fails, `parse` returns false, clears the stored document to
`null` regardless of the previous state, and surfaces the parser's message
verbatim (hence non-empty whenever the parser's message is).  The amendment
restricts the claim to non-blank inputs: blank input short-circuits before
the underlying parser runs and surfaces an empty message. -/
theorem claim6_parse_failure (jp : String → Except String JValue)
    (st : ParserState) (input msg : String)
    (hblank : jsTrim input ≠ "") (hfail : jp input = Except.error msg) :
    parse jp st input = (false, ⟨JValue.null, msg⟩) ∧
    (msg ≠ "" → (parse jp st input).2.errorText ≠ "") := by
  have hmain : parse jp st input = (false, ⟨JValue.null, msg⟩) := by
    unfold parse validateJSON
    rw [if_neg hblank, hfail]
    rfl
  exact ⟨hmain, by intro hm; rw [hmain]; exact hm⟩

/-- C6 counterexample: the underlying parser fails on the empty input text,
and `parse` duly returns false and clears the previously loaded document
`[1]`, but the surfaced error message is empty rather than the parser's
message, because blank input short-circuits before the parser runs. -/
theorem claim6_cex :
    toyParse "" = Except.error "Unexpected end of JSON input" ∧
    parse toyParse ⟨JValue.arr (.cons (.num 1) .nil), ""⟩ "" =
      (false, ⟨JValue.null, ""⟩) ∧
    (parse toyParse ⟨JValue.arr (.cons (.num 1) .nil), ""⟩ "").2.errorText = "" ∧
    ("" : String) ≠ "Unexpected end of JSON input" := by
  refine ⟨rfl, rfl, rfl, by decide⟩

/-- Witness for `claim6_parse_failure` at the failing input `nope` with a
previously loaded document. -/
theorem claim6_witness :
    jsTrim "nope" ≠ "" ∧
    toyParse "nope" = Except.error "Unexpected token in JSON" ∧
    parse toyParse ⟨JValue.num 7, ""⟩ "nope" =
      (false, ⟨JValue.null, "Unexpected token in JSON"⟩) :=
  ⟨by decide, rfl,
    (claim6_parse_failure toyParse ⟨JValue.num 7, ""⟩ "nope"
      "Unexpected token in JSON" (by decide) rfl).1⟩

/-- C10 (amended): when a truthy document is loaded, executing a blank or
whitespace-only query returns false, leaves the stored query result
unchanged, and clears the stored current-query text to empty.  The
amendment adds the loaded-document hypothesis: with no (truthy) document the
EmptyInput branch runs first and the current-query text is left as it was. -/
theorem claim10_blank_query (searchFn : String → JValue → Except String JValue)
    (doc : JValue) (st : EngineState) (q : String)
    (hdoc : truthy doc = true) (hq : jsTrim q = "") :
    executeQuery searchFn doc st q = (false, ⟨st.queryResults, ""⟩, .emptyQuery) ∧
    getCurrentResults (executeQuery searchFn doc st q).2.1 = getCurrentResults st := by
  have hmain : executeQuery searchFn doc st q =
      (false, ⟨st.queryResults, ""⟩, .emptyQuery) := by
    unfold executeQuery
    rw [hdoc]
    simp [hq]
  exact ⟨hmain, by rw [hmain]; rfl⟩

/-- C10 counterexample: in the engine state holding the previous result `1`
and previous query text `length(@)` but no document (the parser state was
cleared), executing a blank query returns false and leaves the result
unchanged, but does not clear the stored current-query text. -/
theorem claim10_cex :
    executeQuery (fun _ v => Except.ok v) JValue.null
      ⟨JValue.num 1, "length(@)"⟩ "" =
      (false, ⟨JValue.num 1, "length(@)"⟩, ExecOutcome.emptyInput) ∧
    getCurrentResults ⟨JValue.num 1, "length(@)"⟩ ≠ JValue.null ∧
    ("length(@)" : String) ≠ "" := by
  refine ⟨rfl, by decide, by decide⟩

/-- Witness for `claim10_blank_query` at the truthy document `7`, a
whitespace-only query, and a state holding a previous result. -/
theorem claim10_witness :
    truthy (JValue.num 7) = true ∧ jsTrim "  " = "" ∧
    executeQuery (fun _ v => Except.ok v) (JValue.num 7)
      ⟨JValue.num 1, "old"⟩ "  " =
      (false, ⟨JValue.num 1, ""⟩, ExecOutcome.emptyQuery) :=
  ⟨by decide, by decide,
    (claim10_blank_query (fun _ v => Except.ok v) (JValue.num 7)
      ⟨JValue.num 1, "old"⟩ "  " (by decide) (by decide)).1⟩

/-- Does a sequence contain at least one mapping element? -/
def hasMappingElement (l : List JValue) : Bool := l.any isMappingJV

theorem foldl_tableKeysStep_no_mapping (data : List JValue) (acc : List String)
    (h : data.any isMappingJV = false) :
    data.foldl tableKeysStep acc = acc := by
  induction data generalizing acc with
  | nil => rfl
  | cons x tl ih =>
    simp only [List.any_cons, Bool.or_eq_false_iff] at h
    cases x with
    | obj fs => simp [isMappingJV] at h
    | null => exact ih acc h.2
    | bool b => exact ih acc h.2
    | num n => exact ih acc h.2
    | str s => exact ih acc h.2
    | arr xs => exact ih acc h.2

/-- C7 (amended): a result that is a sequence always has a present text view;
the table view is offered exactly when the sequence is non-empty (regardless
of whether it contains mapping elements), and when a non-empty sequence
contains no mapping element the offered table view holds the "cannot be
displayed" fallback message rather than a table. -/
theorem claim7_table_fallback (xs : JArr) :
    (displayResults (JValue.arr xs)).hasTextView = true ∧
    ((displayResults (JValue.arr xs)).tableView ≠ none ↔ xs ≠ JArr.nil) ∧
    (xs ≠ JArr.nil → hasMappingElement xs.toList = false →
      (displayResults (JValue.arr xs)).tableView =
        some "<p class=\"info-text\">Data cannot be displayed in table format</p>") := by
  cases xs with
  | nil =>
    refine ⟨rfl, ?_, ?_⟩
    · simp [displayResults, JArr.toList]
    · intro hne
      exact absurd rfl hne
  | cons x tl =>
    refine ⟨rfl, ?_, ?_⟩
    · simp [displayResults, JArr.toList]
    · intro _ hnm
      have hk : tableKeys (x :: tl.toList) = [] :=
        foldl_tableKeysStep_no_mapping _ [] (by simpa [hasMappingElement, JArr.toList] using hnm)
      have hg : generateTableView (x :: tl.toList) =
          "<p class=\"info-text\">Data cannot be displayed in table format</p>" := by
        unfold generateTableView
        simp only [hk]
        simp
      simp [displayResults, JArr.toList, hg]

/-- C7 counterexample: the scalar-only non-empty sequence `[1, 2, 3]` is
claimed to produce an absent table view, but `displayResults` offers the
table view (containing the fallback message) for every non-empty array. -/
theorem claim7_cex :
    (displayResults (JValue.arr (.cons (.num 1) (.cons (.num 2)
        (.cons (.num 3) .nil))))).tableView =
      some "<p class=\"info-text\">Data cannot be displayed in table format</p>" ∧
    (displayResults (JValue.arr (.cons (.num 1) (.cons (.num 2)
        (.cons (.num 3) .nil))))).tableView ≠ none := by
  refine ⟨rfl, by decide⟩

/-- Witness for `claim7_table_fallback` at the non-empty scalar sequence
`[1]`. -/
theorem claim7_witness :
    (JArr.cons (JValue.num 1) JArr.nil ≠ JArr.nil) ∧
    hasMappingElement (JArr.cons (JValue.num 1) JArr.nil).toList = false ∧
    (displayResults (JValue.arr (JArr.cons (JValue.num 1) JArr.nil))).tableView =
      some "<p class=\"info-text\">Data cannot be displayed in table format</p>" :=
  ⟨by decide, by decide,
    (claim7_table_fallback (JArr.cons (JValue.num 1) JArr.nil)).2.2
      (by decide) (by decide)⟩

/-- C8: after adding a non-blank query to any history list, the list holds
exactly one entry with that text, at the front, stamped with the time of
this (latest) addition; the remaining entries are a subsequence of the old
list (relative order preserved) and the list never exceeds 50 entries. -/
theorem claim8_history (h : List HistoryEntry) (q : String) (t : Nat)
    (hq : jsTrim q ≠ "") :
    (addToHistory t q h).head? = some ⟨q, t⟩ ∧
    (addToHistory t q h).countP (fun e => e.query == q) = 1 ∧
    (addToHistory t q h).tail.Sublist h ∧
    (addToHistory t q h).length ≤ MAX_HISTORY_ITEMS := by
  unfold addToHistory
  rw [if_neg hq]
  have hsub : (h.filter (fun item => item.query != q)).Sublist h := List.filter_sublist h
  have hcount : (h.filter (fun item => item.query != q)).countP (fun e => e.query == q) = 0 := by
    rw [List.countP_eq_zero]
    intro a ha
    have := List.of_mem_filter ha
    simpa using this
  by_cases hlen :
      ((⟨q, t⟩ : HistoryEntry) :: h.filter (fun item => item.query != q)).length >
        MAX_HISTORY_ITEMS
  · simp only [if_pos hlen]
    have h50 : MAX_HISTORY_ITEMS = 49 + 1 := rfl
    rw [h50, List.take_succ_cons]
    refine ⟨rfl, ?_, ?_, ?_⟩
    · rw [List.countP_cons]
      have hz : ((h.filter (fun item => item.query != q)).take 49).countP
          (fun e => e.query == q) = 0 := by
        rw [List.countP_eq_zero] at hcount ⊢
        intro a ha
        exact hcount a (List.mem_of_mem_take ha)
      simp [hz]
    · exact (List.take_sublist 49 _).trans hsub
    · have := List.length_take_le 49 (h.filter (fun item => item.query != q))
      simp only [List.length_cons]
      omega
  · simp only [if_neg hlen]
    refine ⟨rfl, ?_, hsub, ?_⟩
    · rw [List.countP_cons]
      simp [hcount]
    · omega

/-- Witness for `claim8_history`: adding `length(@)` to a history already
holding an older entry for the same text yields a single front entry with
the new timestamp. -/
theorem claim8_witness :
    jsTrim "length(@)" ≠ "" ∧
    (addToHistory 5 "length(@)" [⟨"length(@)", 1⟩, ⟨"@", 2⟩]).head? =
      some ⟨"length(@)", 5⟩ ∧
    (addToHistory 5 "length(@)" [⟨"length(@)", 1⟩, ⟨"@", 2⟩]).countP
      (fun e => e.query == "length(@)") = 1 :=
  ⟨by decide,
    (claim8_history [⟨"length(@)", 1⟩, ⟨"@", 2⟩] "length(@)" 5 (by decide)).1,
    (claim8_history [⟨"length(@)", 1⟩, ⟨"@", 2⟩] "length(@)" 5 (by decide)).2.1⟩

/-- Spec-side rendering of a single filter condition following the claim's
words, with the original decimal-number literal rule: infix for the
comparison operators, two-argument function call for the text operators, a
back-tick numeric literal exactly when the raw value parses fully as a
decimal number, a single-quoted text literal otherwise. -/
def specDecimalNumber (s : String) : Bool :=
  match s.data with
  | '+' :: rest => unsignedDecTail rest
  | '-' :: rest => unsignedDecTail rest
  | cs => unsignedDecTail cs

def claimFormatFilterDecimal (f : FilterCond) : String :=
  let lit :=
    if specDecimalNumber f.value then "\x60" ++ f.value ++ "\x60"
    else "\x27" ++ f.value ++ "\x27"
  if f.operator = "contains" ∨ f.operator = "starts_with" ∨ f.operator = "ends_with" then
    f.operator ++ "(" ++ f.field ++ ", " ++ lit ++ ")"
  else f.field ++ " " ++ f.operator ++ " " ++ lit

/-- Spec-side rendering of a single filter condition with the amended
literal rule: the literal is numeric exactly when the raw value is numeric
under the JS string-to-number coercion (`!isNaN(value)`), which also
accepts hexadecimal, binary and octal forms, `Infinity`, and surrounding
whitespace. -/
def specFormatFilter (f : FilterCond) : String :=
  let lit :=
    if isNumericString f.value then "\x60" ++ f.value ++ "\x60"
    else "\x27" ++ f.value ++ "\x27"
  if f.operator = "contains" ∨ f.operator = "starts_with" ∨ f.operator = "ends_with" then
    f.operator ++ "(" ++ f.field ++ ", " ++ lit ++ ")"
  else f.field ++ " " ++ f.operator ++ " " ++ lit

/-- C4 (amended): for every filter with one of the nine operators and
non-empty field and value, the rendered condition follows the claimed
shapes (infix for `==`, `!=`, `>`, `>=`, `<`, `<=`; a function call for
`contains`, `starts_with`, `ends_with`), with the literal back-ticked
exactly when the raw value is numeric under the JS string-to-number
coercion — not exactly when it parses as a decimal number, as claimed. -/
theorem claim4_condition_formatting (f : FilterCond)
    (hop : f.operator ∈ ["==", "!=", ">", ">=", "<", "<=",
      "contains", "starts_with", "ends_with"])
    (hfield : f.field ≠ "") (hvalue : f.value ≠ "") :
    formatFilterCondition f = specFormatFilter f := by
  clear hop hfield hvalue
  unfold formatFilterCondition specFormatFilter
  by_cases h1 : f.operator = "contains"
  · simp [h1]
  · by_cases h2 : f.operator = "starts_with"
    · simp [h1, h2]
    · by_cases h3 : f.operator = "ends_with"
      · simp [h1, h2, h3]
      · simp [h1, h2, h3]

/-- C4 counterexample: the raw value `0x10` does not parse as a decimal
number, so the claim demands the single-quoted text literal, but the code's
`!isNaN` test accepts the hexadecimal form and renders a back-tick numeric
literal. -/
theorem claim4_cex :
    formatFilterCondition ⟨"a", "==", "0x10"⟩ = "a == \x600x10\x60" ∧
    specDecimalNumber "0x10" = false ∧
    claimFormatFilterDecimal ⟨"a", "==", "0x10"⟩ = "a == \x270x10\x27" ∧
    formatFilterCondition ⟨"a", "==", "0x10"⟩ ≠
      claimFormatFilterDecimal ⟨"a", "==", "0x10"⟩ := by
  refine ⟨rfl, rfl, by decide, by decide⟩

/-- Witness for `claim4_condition_formatting` at the filter
`age > 25` (numeric literal) — and the hypotheses are also satisfiable for
the function-call operators, e.g. `contains(name, 'jo')`. -/
theorem claim4_witness :
    (⟨"age", ">", "25"⟩ : FilterCond).operator ∈
      ["==", "!=", ">", ">=", "<", "<=", "contains", "starts_with", "ends_with"] ∧
    ("age" : String) ≠ "" ∧ ("25" : String) ≠ "" ∧
    formatFilterCondition ⟨"age", ">", "25"⟩ = specFormatFilter ⟨"age", ">", "25"⟩ :=
  ⟨by decide, by decide, by decide,
    claim4_condition_formatting ⟨"age", ">", "25"⟩ (by decide) (by decide) (by decide)⟩

theorem mem_addKeysFirstSeen (ks : List String) (acc : List String) (k : String) :
    k ∈ addKeysFirstSeen acc ks ↔ k ∈ acc ∨ k ∈ ks := by
  induction ks generalizing acc with
  | nil => simp [addKeysFirstSeen]
  | cons a as ih =>
    have hstep : addKeysFirstSeen acc (a :: as) =
        addKeysFirstSeen (if acc.contains a then acc else acc ++ [a]) as := rfl
    rw [hstep, ih]
    by_cases hc : acc.contains a = true
    · have ha : a ∈ acc := by simpa using hc
      have hka : k = a → k ∈ acc := fun hk => hk ▸ ha
      simp only [hc, if_true, List.mem_cons]
      tauto
    · have hcf : acc.contains a = false := by simpa using hc
      simp only [hcf]
      rw [if_neg (by simp)]
      simp only [List.mem_append, List.mem_singleton, List.mem_cons]
      tauto

theorem nodup_addKeysFirstSeen (ks : List String) (acc : List String)
    (h : acc.Nodup) : (addKeysFirstSeen acc ks).Nodup := by
  induction ks generalizing acc with
  | nil => exact h
  | cons a as ih =>
    have hstep : addKeysFirstSeen acc (a :: as) =
        addKeysFirstSeen (if acc.contains a then acc else acc ++ [a]) as := rfl
    rw [hstep]
    by_cases hc : acc.contains a = true
    · rw [if_pos hc]
      exact ih acc h
    · rw [if_neg hc]
      refine ih _ ?_
      have ha : a ∉ acc := by simpa using hc
      simp [List.nodup_append, h, ha]

theorem mem_foldl_csvHeaders (data : List JObj) (acc : List String) (k : String) :
    k ∈ data.foldl (fun acc item => addKeysFirstSeen acc item.keys) acc ↔
      k ∈ acc ∨ ∃ item ∈ data, k ∈ item.keys := by
  induction data generalizing acc with
  | nil => simp
  | cons item rest ih =>
    rw [List.foldl_cons, ih, mem_addKeysFirstSeen]
    simp only [List.mem_cons]
    constructor
    · rintro ((h | h) | h)
      · exact Or.inl h
      · exact Or.inr ⟨item, Or.inl rfl, h⟩
      · rcases h with ⟨it, hit, hk⟩
        exact Or.inr ⟨it, Or.inr hit, hk⟩
    · rintro (h | ⟨it, (rfl | hit), hk⟩)
      · exact Or.inl (Or.inl h)
      · exact Or.inl (Or.inr hk)
      · exact Or.inr ⟨it, hit, hk⟩

theorem nodup_foldl_csvHeaders (data : List JObj) (acc : List String)
    (h : acc.Nodup) :
    (data.foldl (fun acc item => addKeysFirstSeen acc item.keys) acc).Nodup := by
  induction data generalizing acc with
  | nil => exact h
  | cons item rest ih => exact ih _ (nodup_addKeysFirstSeen _ _ h)

/-- Spec-side reading of "union of keys in first-seen order": walk a list of
keys keeping each key exactly when it has not been seen before, in order of
appearance; `seen` carries the keys already encountered. -/
def firstSeenFrom (seen : List String) : List String → List String
  | [] => []
  | k :: rest =>
    if k ∈ seen then firstSeenFrom seen rest
    else k :: firstSeenFrom (seen ++ [k]) rest

/-- The first-seen deduplication of a key list: each key appears once, at
the position of its first occurrence. -/
def firstSeen (l : List String) : List String := firstSeenFrom [] l

theorem addKeysFirstSeen_eq_firstSeenFrom (ks : List String) (acc : List String) :
    addKeysFirstSeen acc ks = acc ++ firstSeenFrom acc ks := by
  induction ks generalizing acc with
  | nil => simp [addKeysFirstSeen, firstSeenFrom]
  | cons k rest ih =>
    have hstep : addKeysFirstSeen acc (k :: rest) =
        addKeysFirstSeen (if acc.contains k then acc else acc ++ [k]) rest := rfl
    by_cases hk : k ∈ acc
    · have hc : acc.contains k = true := by simpa using hk
      rw [hstep, if_pos hc, ih, firstSeenFrom, if_pos hk]
    · have hc : acc.contains k = false := by simpa using hk
      rw [hstep, hc]
      simp only [Bool.false_eq_true, if_false]
      rw [ih, firstSeenFrom, if_neg hk]
      simp

theorem firstSeenFrom_append (l1 l2 : List String) (seen : List String) :
    firstSeenFrom seen (l1 ++ l2) =
      firstSeenFrom seen l1 ++
        firstSeenFrom (seen ++ firstSeenFrom seen l1) l2 := by
  induction l1 generalizing seen with
  | nil => simp [firstSeenFrom]
  | cons k l1 ih =>
    by_cases hk : k ∈ seen
    · simp [firstSeenFrom, hk, ih]
    · simp [firstSeenFrom, hk, ih]

theorem foldl_csvHeaders_firstSeen (data : List JObj) (acc : List String) :
    data.foldl (fun acc item => addKeysFirstSeen acc item.keys) acc =
      acc ++ firstSeenFrom acc (List.flatten (data.map JObj.keys)) := by
  induction data generalizing acc with
  | nil => simp [firstSeenFrom]
  | cons item rest ih =>
    rw [List.foldl_cons, ih, addKeysFirstSeen_eq_firstSeenFrom]
    simp only [List.map_cons, List.flatten_cons]
    rw [firstSeenFrom_append]
    simp

/-- The CSV header row is the first-seen deduplication of the concatenation
of the records' key lists (in record order): this pins down the header
order, not merely its membership. -/
theorem csvHeaders_eq_firstSeen (data : List JObj) :
    csvHeaders data = firstSeen (List.flatten (data.map JObj.keys)) := by
  unfold csvHeaders firstSeen
  simpa using foldl_csvHeaders_firstSeen data []

/-- Spec-side transcription of "embedded quotes doubled": every double-quote
character is replaced by two, all other characters kept. -/
def specDoubleQuotes : List Char → List Char
  | [] => []
  | c :: rest =>
    if c = '"' then '"' :: '"' :: specDoubleQuotes rest
    else c :: specDoubleQuotes rest

theorem foldr_eq_specDoubleQuotes (cs : List Char) :
    cs.foldr (fun c acc => if c = '"' then '"' :: '"' :: acc else c :: acc) [] =
      specDoubleQuotes cs := by
  induction cs with
  | nil => rfl
  | cons c rest ih =>
    by_cases hc : c = '"'
    · simp [specDoubleQuotes, hc, ih]
    · simp [specDoubleQuotes, hc, ih]

/-- C9: CSV export of a sequence of records: the header row is the union of
the records' keys in first-seen order (characterized in full generality as
the first-occurrence deduplication of the concatenated key lists, and
discriminated from sorted order by the `[{b: 2}, {a: 1}]` instance, whose
header is `b,a`); within each row a missing key yields an empty cell,
object- and array-valued cells embed their compact JSON text, and — for
every cell value — a value containing the delimiter, a double quote or a
newline is wrapped in double quotes with embedded quotes doubled, while any
other value is left unchanged; in particular `[{a: 1}, {b: 2}]` exports
with header `a,b` and rows `1,` and `,2`. -/
theorem claim9_csv_export :
    convertToCSV [JObj.cons "a" (JValue.num 1) JObj.nil,
      JObj.cons "b" (JValue.num 2) JObj.nil] = "a,b\n1,\n,2" ∧
    csvHeaders [JObj.cons "a" (JValue.num 1) JObj.nil,
      JObj.cons "b" (JValue.num 2) JObj.nil] = ["a", "b"] ∧
    convertToCSV [JObj.cons "b" (JValue.num 2) JObj.nil,
      JObj.cons "a" (JValue.num 1) JObj.nil] = "b,a\n2,\n,1" ∧
    csvHeaders [JObj.cons "b" (JValue.num 2) JObj.nil,
      JObj.cons "a" (JValue.num 1) JObj.nil] = ["b", "a"] ∧
    (∀ data : List JObj,
      csvHeaders data = firstSeen (List.flatten (data.map JObj.keys))) ∧
    (∀ (data : List JObj) (k : String),
      k ∈ csvHeaders data ↔ ∃ item ∈ data, k ∈ item.keys) ∧
    (∀ data : List JObj, (csvHeaders data).Nodup) ∧
    (∀ (item : JObj) (k : String), item.lookup k = none →
      formatCSVValue (item.lookup k) = "") ∧
    (∀ fs : JObj, formatCSVValue (some (.obj fs)) =
      escapeCSVValue (jsonStringify (.obj fs))) ∧
    (∀ xs : JArr, formatCSVValue (some (.arr xs)) =
      escapeCSVValue (jsonStringify (.arr xs))) ∧
    (∀ s : String, (',' ∈ s.data ∨ '"' ∈ s.data ∨ '\n' ∈ s.data) →
      escapeCSVValue s = "\"" ++ (⟨specDoubleQuotes s.data⟩ : String) ++ "\"") ∧
    (∀ s : String, ',' ∉ s.data → '"' ∉ s.data → '\n' ∉ s.data →
      escapeCSVValue s = s) ∧
    escapeCSVValue "say \"hi\"" = "\"say \"\"hi\"\"\"" ∧
    escapeCSVValue "a,b" = "\"a,b\"" ∧
    escapeCSVValue "x\ny" = "\"x\ny\"" ∧
    escapeCSVValue "plain" = "plain" := by
  refine ⟨rfl, rfl, rfl, rfl, csvHeaders_eq_firstSeen, ?_, ?_, ?_,
    fun _ => rfl, fun _ => rfl, ?_, ?_, rfl, rfl, rfl, rfl⟩
  · intro data k
    exact mem_foldl_csvHeaders data [] k |>.trans (by simp)
  · intro data
    exact nodup_foldl_csvHeaders data [] List.nodup_nil
  · intro item k hk
    rw [hk]
    rfl
  · intro s hmem
    have hcond : (s.data.contains ',' || s.data.contains '"' ||
        s.data.contains '\n') = true := by
      rcases hmem with h | h | h <;> simp [h]
    unfold escapeCSVValue
    rw [if_pos hcond, foldr_eq_specDoubleQuotes]
  · intro s h1 h2 h3
    have hcond : (s.data.contains ',' || s.data.contains '"' ||
        s.data.contains '\n') = false := by
      simp [h1, h2, h3]
    unfold escapeCSVValue
    rw [hcond]
    simp

/-- Witness for `claim9_csv_export` at concrete instances: the record
`{a: 1}` has no key `b` and its `b` cell is empty; the value `a,b` contains
the delimiter and is quote-wrapped. -/
theorem claim9_witness :
    (JObj.cons "a" (JValue.num 1) JObj.nil).lookup "b" = none ∧
    formatCSVValue ((JObj.cons "a" (JValue.num 1) JObj.nil).lookup "b") = "" ∧
    (',' ∈ ("a,b" : String).data ∨ '"' ∈ ("a,b" : String).data ∨
      '\n' ∈ ("a,b" : String).data) ∧
    escapeCSVValue "a,b" =
      "\"" ++ (⟨specDoubleQuotes ("a,b" : String).data⟩ : String) ++ "\"" :=
  ⟨rfl,
    claim9_csv_export.2.2.2.2.2.2.2.1 (JObj.cons "a" (JValue.num 1) JObj.nil) "b" rfl,
    by decide,
    claim9_csv_export.2.2.2.2.2.2.2.2.2.2.1 "a,b" (by decide)⟩
